import Mathlib

/-!
Shallow embedding of the alignment-and-metrics core of the
MIKE_IO_Calibration-Validation repository (src/align_and_metrics.py,
src/load_dfs0_list.py, src/load_mat_list.py, src/plot_dfs0_item.py),
together with theorems settling the frozen claims about it.

Modelling conventions:
* Timestamps are integers (an idealised epoch count, e.g. nanoseconds, the
  unit pandas uses internally); a tolerance or a resample width is likewise
  an integer duration, taken as already parsed (string parsing such as
  pd.Timedelta("10min") is external library code).
* A floating-point value is modelled exactly: a finite float is a rational
  number, and the non-finite values NaN, +inf and -inf are explicit
  constructors.  Exact rational/real arithmetic stands in for ieee rounding.
* pandas Series are association lists of (timestamp, value) pairs; the
  operations are modelled at unique-timestamp indexes (a duplicated index
  makes the pandas calls used here raise), which the claim theorems record
  as strict-sortedness hypotheses where needed.
* File-system access (Path.exists, mikeio.read, scipy.io.loadmat) is an
  oracle parameter mapping each path to its outcome; Path.name (the
  basename) is likewise a parameter.
-/

namespace CalVal

/-- Model of a python/numpy float: a finite value is an exact rational;
NaN and the two infinities are explicit. -/
inductive FP where
  | fin (q : ℚ)
  | nan
  | pinf
  | ninf
  deriving DecidableEq, Repr

/-- Model of np.isfinite: true exactly on finite values. -/
def isFiniteFP : FP → Bool
  | .fin _ => true
  | _ => false

/-- Timestamps are integer epoch counts. -/
abbrev Time := Int

/-- A pandas Series with datetime index: an ordered list of
(timestamp, value) pairs. -/
abbrev Series := List (Time × FP)

/-- A row of the aligned DataFrame: (timestamp, model value, obs value). -/
abbrev Row := Time × FP × FP

/-- Helper for the python substring test: does the first character list
start the second one. -/
def startsWithB : List Char → List Char → Bool
  | [], _ => true
  | _ :: _, [] => false
  | a :: as, b :: bs => a == b && startsWithB as bs

/-- Python substring containment q in s over character lists. -/
def containsSub : List Char → List Char → Bool
  | q, [] => q.isEmpty
  | q, c :: s' => startsWithB q (c :: s') || containsSub q s'

/-- First index satisfying the predicate, as the python for-loops compute
it (None when no element matches). -/
def firstIdx (p : α → Bool) : List α → Option Nat
  | [] => none
  | a :: l => if p a then some 0 else (firstIdx p l).map (· + 1)

/-- Model of the python str.lower() call: lowercase every character. -/
def lowerStr (s : String) : String := String.mk (s.data.map Char.toLower)

/-- Embedding of _find_item_index (src/align_and_metrics.py lines 17-27 and
src/plot_dfs0_item.py lines 16-26): exact case-insensitive name match first,
else first substring match; None models the final ValueError. -/
def find_item_index (names : List String) (item_query : String) : Option Nat :=
  let q := lowerStr item_query
  match firstIdx (fun nm => lowerStr nm == q) names with
  | some i => some i
  | none => firstIdx (fun nm => containsSub q.data (lowerStr nm).data) names

/-- Model of a loaded mikeio dfs0 Dataset, already in (time, items) shape:
the named items each carry one column of values over the shared time axis.
The _ensure_time_items transpose heuristic and its shape check concern raw
numpy arrays and are outside this embedding, which starts from the
structured form. -/
structure Dataset where
  time : List Time
  items : List (String × List FP)
  deriving DecidableEq, Repr

/-- Model of one ADCP bin inside the MATLAB profileStruct. -/
structure BinData where
  time : List Time
  speed : List FP
  deriving DecidableEq, Repr

/-- Model of the MATLAB profileStruct: a list of bins. -/
structure ProfileStruct where
  bins : List BinData
  deriving DecidableEq, Repr

/-- Variables of one loaded .mat file (only profileStruct is ever read). -/
abbrev MatVars := List (String × ProfileStruct)

/-- Errors raised by the extraction / alignment pipeline. -/
inductive CompErr where
  | keyNotFound (key : String) (avail : List String)
  | itemNotFound (query : String) (avail : List String)
  | matKeyNotFound (key : String) (avail : List String)
  | profileStructMissing (key : String) (avail : List String)
  | binInvalid (idx : Nat) (nbins : Nat)
  | badMethod
  | badHow
  deriving DecidableEq, Repr

/-- Embedding of get_dfs0_speed_series (src/align_and_metrics.py lines
29-37): KeyError when the dataset key is absent, ValueError (listing the
available item names) when no item matches, otherwise the requested column
zipped with the time axis. -/
def get_dfs0_speed_series (datasets : List (String × Dataset))
    (dfs0_key item_query : String) : Except CompErr Series :=
  match datasets.lookup dfs0_key with
  | none => .error (.keyNotFound dfs0_key (datasets.map (·.1)))
  | some ds =>
    match find_item_index (ds.items.map (·.1)) item_query with
    | none => .error (.itemNotFound item_query (ds.items.map (·.1)))
    | some i => .ok (ds.time.zip (((ds.items.get? i).getD ("", [])).2))

/-- Embedding of get_hg_speed_series (src/align_and_metrics.py lines
39-54): KeyError on a missing mat key or missing profileStruct variable,
IndexError on a bad bin index, otherwise the bin speeds zipped with the
bin times. -/
def get_hg_speed_series (mat_data : List (String × MatVars))
    (mat_key : String) (bin_index : Nat) : Except CompErr Series :=
  match mat_data.lookup mat_key with
  | none => .error (.matKeyNotFound mat_key (mat_data.map (·.1)))
  | some md =>
    match md.lookup "profileStruct" with
    | none => .error (.profileStructMissing mat_key (md.map (·.1)))
    | some ps =>
      match ps.bins.get? bin_index with
      | none => .error (.binInvalid bin_index ps.bins.length)
      | some b => .ok (b.time.zip b.speed)

/-- Decidability of the key ordering used to sort a Series. -/
instance : DecidableRel (fun (a b : Time × FP) => a.1 ≤ b.1) :=
  fun a b => Int.decLe a.1 b.1

/-- Embedding of Series.sort_index: sort the pairs by timestamp. -/
def sortSeries (s : Series) : Series :=
  s.insertionSort (fun a b => a.1 ≤ b.1)

/-- Values of a bucket with NaN entries removed (pandas aggregations use
skipna=True). -/
def dropNanVals (vs : List FP) : List FP :=
  vs.filter (fun v => decide (v ≠ FP.nan))

/-- Finite rational content of a float value. -/
def finiteVal : FP → Option ℚ
  | .fin q => some q
  | _ => none

/-- Pandas bucket mean with skipna: NaN on an empty bucket, infinities
absorb, otherwise the exact rational mean. -/
def aggMean (vs : List FP) : FP :=
  let v2 := dropNanVals vs
  if v2 = [] then FP.nan
  else if FP.pinf ∈ v2 ∧ FP.ninf ∈ v2 then FP.nan
  else if FP.pinf ∈ v2 then FP.pinf
  else if FP.ninf ∈ v2 then FP.ninf
  else FP.fin ((v2.filterMap finiteVal).sum / v2.length)

/-- Pandas bucket sum with skipna and min_count=0: zero on an empty
bucket, infinities absorb. -/
def aggSum (vs : List FP) : FP :=
  let v2 := dropNanVals vs
  if FP.pinf ∈ v2 ∧ FP.ninf ∈ v2 then FP.nan
  else if FP.pinf ∈ v2 then FP.pinf
  else if FP.ninf ∈ v2 then FP.ninf
  else FP.fin (v2.filterMap finiteVal).sum

/-- Ordering of non-NaN float values, used by the median. -/
def fpLeB : FP → FP → Bool
  | .ninf, _ => true
  | _, .pinf => true
  | .fin a, .fin b => a ≤ b
  | .pinf, .fin _ => false
  | .pinf, .ninf => false
  | .fin _, .ninf => false
  | .nan, _ => true
  | _, .nan => true

/-- Insertion of one element into a list sorted by a boolean relation. -/
def insertSorted (le : α → α → Bool) (x : α) : List α → List α
  | [] => [x]
  | y :: ys => if le x y then x :: y :: ys else y :: insertSorted le x ys

/-- Insertion sort by a boolean relation. -/
def sortByB (le : α → α → Bool) (l : List α) : List α :=
  l.foldr (insertSorted le) []

/-- Average of the two middle values for an even-length median. -/
def avgFP : FP → FP → FP
  | .fin a, .fin b => .fin ((a + b) / 2)
  | .pinf, .ninf => .nan
  | .ninf, .pinf => .nan
  | .pinf, _ => .pinf
  | _, .pinf => .pinf
  | .ninf, _ => .ninf
  | _, .ninf => .ninf
  | .nan, _ => .nan
  | _, .nan => .nan

/-- Pandas bucket median with skipna: NaN on an empty bucket, otherwise
the middle of the sorted values (mean of the two middles when even). -/
def aggMedian (vs : List FP) : FP :=
  let v2 := dropNanVals vs
  if v2 = [] then FP.nan
  else
    let s := sortByB fpLeB v2
    let n := s.length
    if n % 2 = 1 then (s.get? (n / 2)).getD FP.nan
    else avgFP ((s.get? (n / 2 - 1)).getD FP.nan) ((s.get? (n / 2)).getD FP.nan)

/-- Embedding of the aggregation dictionary lookup on line 80 of
src/align_and_metrics.py: agg = dict(mean, median, sum)[how_resample];
None models the KeyError on an unrecognised aggregation name. -/
def lookupAgg (how_resample : String) : Option (List FP → FP) :=
  if how_resample = "mean" then some aggMean
  else if how_resample = "median" then some aggMedian
  else if how_resample = "sum" then some aggSum
  else none

/-- Bucket label of a timestamp under resampling width w: the timestamp
floored to a multiple of w (pandas bins an epoch-based frequency this
way). -/
def bucketOf (w : Nat) (t : Time) : Time :=
  (Int.fdiv t w) * w

/-- Embedding of s.resample(rule).agg() for an integer bucket width:
one output row per bucket from the first to the last occupied bucket, in
increasing label order, carrying the aggregation of the values whose
timestamps fall in that bucket (an empty bucket aggregates the empty
list). -/
def resampleSeries (w : Nat) (agg : List FP → FP) (s : Series) : Series :=
  match s with
  | [] => []
  | p0 :: _ =>
    let keys := s.map (fun p => bucketOf w p.1)
    let lo := keys.foldl min (bucketOf w p0.1)
    let hi := keys.foldl max (bucketOf w p0.1)
    let nB := ((hi - lo).toNat / w) + 1
    (List.range nB).map (fun j =>
      let b := lo + Int.ofNat j * w
      (b, agg ((s.filter (fun p => decide (bucketOf w p.1 = b))).map (·.2))))

/-- Keys (timestamps) of a series. -/
def keysOf (s : Series) : List Time := s.map (·.1)

/-- Value of a series at a timestamp, NaN when absent (the missing-value
marker pandas introduces in an outer join). -/
def lookupVal (s : Series) (t : Time) : FP :=
  (s.lookup t).getD FP.nan

/-- Sorted deduplicated union of two timestamp lists, as pandas builds the
index of an outer concat. -/
def sortedUnion (a b : List Time) : List Time :=
  ((a ++ b).insertionSort (· ≤ ·)).dedup

/-- Embedding of pd.concat([sm, so], axis=1, join="inner") at a
unique-timestamp index: the rows of sm whose timestamp also occurs in so,
paired with the so value there. -/
def innerJoin (a b : Series) : List Row :=
  a.filterMap (fun p => (b.lookup p.1).map (fun w => (p.1, p.2, w)))

/-- Embedding of pd.concat([sm, so], axis=1, join="outer") at a
unique-timestamp index: one row per timestamp of the sorted union, with
NaN where a side lacks a reading. -/
def outerJoin (a b : Series) : List Row :=
  (sortedUnion (keysOf a) (keysOf b)).map (fun t => (t, lookupVal a t, lookupVal b t))

/-- Preference order of pandas reindex(method="nearest"): a candidate
beats the incumbent when strictly closer, or equally close with the later
timestamp (pandas resolves distance ties towards the backfill side). -/
def betterB (t : Time) (c b : Time × FP) : Bool :=
  decide (|c.1 - t| < |b.1 - t| ∨ (|c.1 - t| = |b.1 - t| ∧ b.1 < c.1))

/-- One fold step of the nearest search: keep the incumbent unless the
candidate is preferred. -/
def nearStep (t : Time) (best : Option (Time × FP)) (c : Time × FP) :
    Option (Time × FP) :=
  match best with
  | none => some c
  | some b => if betterB t c b then some c else some b

/-- Nearest entry of a series to a timestamp under the pandas tie rule. -/
def nearest? (so : Series) (t : Time) : Option (Time × FP) :=
  so.foldl (nearStep t) none

/-- Embedding of so.reindex(sm.index, method="nearest",
tolerance=tol) at one target timestamp: the value at the nearest observed
timestamp when within tolerance, NaN otherwise. -/
def nearestWithin (so : Series) (t : Time) (tol : Time) : FP :=
  match nearest? so t with
  | none => FP.nan
  | some c => if |c.1 - t| ≤ tol then c.2 else FP.nan

/-- Embedding of the asof branch (lines 88-91): a row per model timestamp,
obs column filled by tolerance-limited nearest reindexing. -/
def asofJoin (sm so : Series) (tol : Time) : List Row :=
  sm.map (fun p => (p.1, p.2, nearestWithin so p.1 tol))

/-- Embedding of df.dropna() on the two value columns: drop every row
holding a NaN (infinities are not missing values and are kept). -/
def dropna (rows : List Row) : List Row :=
  rows.filter (fun r => decide (r.2.1 ≠ FP.nan ∧ r.2.2 ≠ FP.nan))

/-- Dispatch on the method string (lines 84-93), applied after the
optional resampling; dropna (line 96) runs on every successful branch. -/
def alignDispatch (method : String) (sm so : Series) (tol : Time) :
    Except CompErr (List Row) :=
  if method = "inner" then .ok (dropna (innerJoin sm so))
  else if method = "outer" then .ok (dropna (outerJoin sm so))
  else if method = "asof" then .ok (dropna (asofJoin sm so tol))
  else .error .badMethod

/-- Embedding of align_series (src/align_and_metrics.py lines 57-96):
sort both series, optionally resample both (the aggregation-name lookup
raising KeyError on an unrecognised name, before the method check), then
join by the requested method and drop rows containing NaN.  The tolerance
and the resample rule are taken already parsed. -/
def align_series (s_model s_obs : Series) (method : String) (tolerance : Time)
    (resample : Option Nat) (how_resample : String) : Except CompErr (List Row) :=
  let sm := sortSeries s_model
  let so := sortSeries s_obs
  match resample with
  | some w =>
    match lookupAgg how_resample with
    | none => .error .badHow
    | some agg => alignDispatch method (resampleSeries w agg sm) (resampleSeries w agg so) tolerance
  | none => alignDispatch method sm so tolerance

/-- Pairs at positions where both inputs are finite, the effect of the
isfinite mask on lines 103-104 (the modelled call sites always pass
equal-length arrays, on which zip is exact). -/
def finitePairs (obs mod : List FP) : List (ℚ × ℚ) :=
  (obs.zip mod).filterMap (fun p =>
    match finiteVal p.1, finiteVal p.2 with
    | some a, some b => some (a, b)
    | _, _ => none)

/-- Mean of a rational list (division by a zero length only arises in
branches the code guards by n positive). -/
def qmean (l : List ℚ) : ℚ := l.sum / l.length

/-- Sum of squared deviations from the mean, the shared building block of
the correlation denominator and the NSE denominator. -/
def devSumSq (l : List ℚ) : ℚ :=
  ((l.map (fun x => (x - qmean l) ^ 2)).sum)

/-- Cross sum of deviation products, the numerator of np.corrcoef. -/
def crossDevSum (xs ys : List ℚ) : ℚ :=
  (((xs.zip ys).map (fun p => (p.1 - qmean xs) * (p.2 - qmean ys))).sum)

/-- The full statistics record built by calc_stats when n is positive.
Fields computed by rational arithmetic stay rational; RMSE and the
correlation, which involve a square root, live in the reals.  A None in
corr, r2 or nse models the NaN the code stores there (corr is NaN when
n is at most 1 or either variance vanishes, r2 is NaN when corr is, nse is
NaN when the observed variance vanishes). -/
@[ext]
structure Stats where
  n : ℕ
  bias : ℚ
  mae : ℚ
  rmse : ℝ
  corr : Option ℝ
  r2 : Option ℝ
  nse : Option ℚ

/-- Result of calc_stats: the count-only record on zero overlap, else the
full record. -/
inductive CalcResult where
  | countOnly
  | full (s : Stats)

/-- Embedding of calc_stats (src/align_and_metrics.py lines 99-123):
filter to mutually finite pairs; with none left return only the count;
otherwise bias, MAE, RMSE, Pearson correlation (NaN when n is at most 1 or
a variance is zero, as 0/0 is NaN in numpy), its square, and the
Nash-Sutcliffe efficiency (NaN when the observed variance is zero). -/
noncomputable def calc_stats (obs mod : List FP) : CalcResult :=
  let pairs := finitePairs obs mod
  let n := pairs.length
  if n = 0 then .countOnly
  else
    let o := pairs.map (·.1)
    let m := pairs.map (·.2)
    let diffs := pairs.map (fun p => p.2 - p.1)
    let bias := qmean diffs
    let mae := qmean (diffs.map (fun d => |d|))
    let mse := qmean (diffs.map (fun d => d ^ 2))
    let rmse : ℝ := Real.sqrt (mse : ℝ)
    let sxx := devSumSq o
    let syy := devSumSq m
    let sxy := crossDevSum o m
    let corr : Option ℝ :=
      if 1 < n ∧ sxx ≠ 0 ∧ syy ≠ 0 then
        some ((sxy : ℝ) / Real.sqrt ((sxx : ℝ) * (syy : ℝ)))
      else none
    let r2 := corr.map (fun c => c ^ 2)
    let denom := devSumSq o
    let nse : Option ℚ :=
      if 0 < denom then some (1 - ((pairs.map (fun p => (p.1 - p.2) ^ 2)).sum) / denom)
      else none
    .full ⟨n, bias, mae, rmse, corr, r2, nse⟩

/-- Correlation field of a calc_stats result (None both for the
count-only record and for a NaN correlation). -/
noncomputable def corrOf : CalcResult → Option ℝ
  | .countOnly => none
  | .full s => s.corr

/-- Embedding of compare_speed_stats (src/align_and_metrics.py lines
126-148): extract the model and observed series, align them, and compute
the statistics of the obs column against the model column. -/
noncomputable def compare_speed_stats (datasets : List (String × Dataset))
    (mat_data : List (String × MatVars)) (dfs0_key dfs0_item mat_key : String)
    (bin_index : Nat) (align_method : String) (tolerance : Time)
    (resample : Option Nat) (how_resample : String) :
    Except CompErr (List Row × CalcResult) :=
  match get_dfs0_speed_series datasets dfs0_key dfs0_item with
  | .error e => .error e
  | .ok s_model =>
    match get_hg_speed_series mat_data mat_key bin_index with
    | .error e => .error e
    | .ok s_obs =>
      match align_series s_model s_obs align_method tolerance resample how_resample with
      | .error e => .error e
      | .ok aligned =>
        .ok (aligned, calc_stats (aligned.map (fun r => r.2.2))
          (aligned.map (fun r => r.2.1)))

/-- Rows component of a compare_speed_stats result (empty on error). -/
noncomputable def rowsOf : Except CompErr (List Row × CalcResult) → List Row
  | .ok p => p.1
  | .error _ => []

/-- Outcome of attempting to read one path: the file may be absent
(Path.exists false), the library read may raise, or a value is loaded.
This oracle stands in for the file system and the external readers. -/
inductive LoadOutcome (α : Type) where
  | missing
  | failed
  | loaded (v : α)
  deriving DecidableEq, Repr

/-- Python dict assignment d[k] = v: overwrite the existing entry in
place, else append a new one. -/
def dictInsert (d : List (String × α)) (k : String) (v : α) : List (String × α) :=
  if (d.lookup k).isSome then d.map (fun p => if p.1 = k then (k, v) else p)
  else d ++ [(k, v)]

/-- Embedding of load_dfs0s (src/load_dfs0_list.py lines 5-22): walk the
path list; a missing path is logged and skipped, a failing read is logged
and skipped, a successful read is stored under the basename of the path
(fileName models Path.name, fs models exists plus mikeio.read).  The
dataset type is abstract since the loader never inspects it. -/
def load_dfs0s (fs : String → LoadOutcome α) (fileName : String → String)
    (file_list : List String) : List (String × α) :=
  file_list.foldl (fun d f =>
    match fs f with
    | .loaded v => dictInsert d (fileName f) v
    | _ => d) []

/-- Embedding of load_mat_files (src/load_mat_list.py lines 37-61):
identical skip-and-continue structure; the oracle outcome stands for the
whole try block (scipy loadmat, the dunder-key filter and the Time-field
conversion), whose failure is logged and skipped. -/
def load_mat_files (fs : String → LoadOutcome α) (fileName : String → String)
    (file_list : List String) : List (String × α) :=
  file_list.foldl (fun d f =>
    match fs f with
    | .loaded v => dictInsert d (fileName f) v
    | _ => d) []

/-- Successful loads in input order, as (basename, value) pairs: the
reference point for stating what the bulk loaders return. -/
def loadedPairs (fs : String → LoadOutcome α) (fileName : String → String)
    (file_list : List String) : List (String × α) :=
  file_list.filterMap (fun f =>
    match fs f with
    | .loaded v => some (fileName f, v)
    | _ => none)

/-- Well-formedness of a Named Series as the spec describes it (sorted by
timestamp, and at unique timestamps, the regime in which the pandas calls
modelled here are defined): strictly increasing timestamps. -/
def SSorted (s : Series) : Prop :=
  List.Pairwise (fun a b : Time × FP => a.1 < b.1) s

instance (s : Series) : Decidable (SSorted s) := by
  unfold SSorted; infer_instance

/-- Number of timestamps of a that also occur in b: the exactly-shared
timestamp count of the claims, counted over a unique-timestamp series. -/
def sharedCount (a b : Series) : ℕ :=
  (a.filter (fun p => (b.lookup p.1).isSome)).length

/-- Number of timestamps shared by a and b at which both carried values
are non-missing (non-NaN). -/
def goodSharedCount (a b : Series) : ℕ :=
  (a.filter (fun p =>
    decide (p.2 ≠ FP.nan) &&
      (match b.lookup p.1 with
       | some w => decide (w ≠ FP.nan)
       | none => false))).length

/-- Finite values of an array, in order: the self-masked array that
calc_stats works on when both arguments coincide. -/
def finiteVals (l : List FP) : List ℚ :=
  l.filterMap finiteVal

/-- Claim C5: for every input pair with zero mutually finite pairs
(empty arrays included, and arrays non-finite on at least one side at
every position), calc_stats returns the count-only record, omitting every
other field, and raises no error (the embedding is a total function). -/
theorem claim5_zero_overlap_count_only (obs mod : List FP)
    (h : (finitePairs obs mod).length = 0) : calc_stats obs mod = .countOnly := by
  simp only [calc_stats]
  rw [if_pos h]

/-- Witness for claim C5 at a concrete pair that is empty after masking:
one NaN against a finite value, one finite value against +inf. -/
theorem claim5_witness :
    (finitePairs [FP.nan, FP.fin 1] [FP.fin 2, FP.pinf]).length = 0 ∧
      calc_stats [FP.nan, FP.fin 1] [FP.fin 2, FP.pinf] = .countOnly :=
  ⟨by decide, claim5_zero_overlap_count_only _ _ (by decide)⟩

/-- Counterexample to claim C4 as stated: on the one-element array the code
reaches the n-positive branch but stores NaN (modelled None) for the
correlation, not 1, because np.corrcoef is only taken when n exceeds 1. -/
theorem claim4_counterexample :
    corrOf (calc_stats [FP.fin 1] [FP.fin 1]) ≠ some 1 := by
  have h : corrOf (calc_stats [FP.fin 1] [FP.fin 1]) = none := rfl
  rw [h]
  simp

theorem zip_self (l : List α) : l.zip l = l.map (fun a => (a, a)) := by
  induction l with
  | nil => rfl
  | cons a l ih => simp [List.zip_cons_cons, ih]

theorem finitePairs_cons (a b : FP) (l m : List FP) :
    finitePairs (a :: l) (b :: m) =
      match finiteVal a, finiteVal b with
      | some u, some v => (u, v) :: finitePairs l m
      | _, _ => finitePairs l m := by
  cases a <;> cases b <;> simp [finitePairs, finiteVal]

theorem finitePairs_self (x : List FP) :
    finitePairs x x = (finiteVals x).map (fun q => (q, q)) := by
  induction x with
  | nil => rfl
  | cons a l ih =>
    rw [finitePairs_cons]
    cases a <;> simp [finiteVal, finiteVals, List.filterMap_cons, ih]

theorem sum_map_eq_zero (l : List ℚ) (f : ℚ → ℚ) (h : ∀ x ∈ l, f x = 0) :
    (l.map f).sum = 0 := by
  induction l with
  | nil => rfl
  | cons a l ih =>
    simp only [List.map_cons, List.sum_cons, h a (List.mem_cons_self a l)]
    rw [ih (fun x hx => h x (List.mem_cons_of_mem a hx))]
    ring

theorem qmean_map_eq_zero (l : List ℚ) (f : ℚ → ℚ) (h : ∀ x ∈ l, f x = 0) :
    qmean (l.map f) = 0 := by
  unfold qmean
  rw [sum_map_eq_zero l f h, zero_div]

theorem crossDevSum_self (l : List ℚ) : crossDevSum l l = devSumSq l := by
  unfold crossDevSum devSumSq
  rw [zip_self, List.map_map]
  congr 1
  apply List.map_congr_left
  intro a _
  simp [pow_two]

theorem devSumSq_nonneg (l : List ℚ) : 0 ≤ devSumSq l := by
  unfold devSumSq
  apply List.sum_nonneg
  intro a ha
  simp only [List.mem_map] at ha
  obtain ⟨x, _, rfl⟩ := ha
  positivity

/-- Claim C4, amended: on identical arrays whose mutually finite subset has
at least two elements and nonzero variance, calc_stats returns Bias 0,
MAE 0, RMSE 0, Correlation 1, R-squared 1 and NSE 1 (on a smaller or
constant finite subset the correlation, R-squared and NSE degenerate to
NaN instead). -/
theorem calc_stats_eq (obs mod : List FP) (h : ¬ (finitePairs obs mod).length = 0) :
    calc_stats obs mod =
      .full ⟨(finitePairs obs mod).length,
        qmean ((finitePairs obs mod).map (fun p => p.2 - p.1)),
        qmean (((finitePairs obs mod).map (fun p => p.2 - p.1)).map (fun d => |d|)),
        Real.sqrt ((qmean (((finitePairs obs mod).map (fun p => p.2 - p.1)).map (fun d => d ^ 2)) : ℚ) : ℝ),
        if 1 < (finitePairs obs mod).length ∧
            devSumSq ((finitePairs obs mod).map (fun p => p.1)) ≠ 0 ∧
            devSumSq ((finitePairs obs mod).map (fun p => p.2)) ≠ 0 then
          some ((crossDevSum ((finitePairs obs mod).map (fun p => p.1))
              ((finitePairs obs mod).map (fun p => p.2)) : ℚ) /
            Real.sqrt ((devSumSq ((finitePairs obs mod).map (fun p => p.1)) : ℚ) *
              (devSumSq ((finitePairs obs mod).map (fun p => p.2)) : ℚ)))
        else none,
        Option.map (fun c => c ^ 2)
          (if 1 < (finitePairs obs mod).length ∧
              devSumSq ((finitePairs obs mod).map (fun p => p.1)) ≠ 0 ∧
              devSumSq ((finitePairs obs mod).map (fun p => p.2)) ≠ 0 then
            some ((crossDevSum ((finitePairs obs mod).map (fun p => p.1))
                ((finitePairs obs mod).map (fun p => p.2)) : ℚ) /
              Real.sqrt ((devSumSq ((finitePairs obs mod).map (fun p => p.1)) : ℚ) *
                (devSumSq ((finitePairs obs mod).map (fun p => p.2)) : ℚ)))
          else none),
        if 0 < devSumSq ((finitePairs obs mod).map (fun p => p.1)) then
          some (1 - ((finitePairs obs mod).map (fun p => (p.1 - p.2) ^ 2)).sum /
            devSumSq ((finitePairs obs mod).map (fun p => p.1)))
        else none⟩ := by
  simp only [calc_stats]
  rw [if_neg h]

/-- Claim C4, amended: on identical arrays whose mutually finite subset has
at least two elements and nonzero variance, calc_stats returns Bias 0,
MAE 0, RMSE 0, Correlation 1, R-squared 1 and NSE 1 (on a smaller or
constant finite subset the correlation, R-squared and NSE fields
degenerate to NaN instead). -/
theorem claim4_amended (x : List FP) (h2 : 2 ≤ (finiteVals x).length)
    (hS : devSumSq (finiteVals x) ≠ 0) :
    calc_stats x x =
      .full ⟨(finiteVals x).length, 0, 0, 0, some 1, some 1, some 1⟩ := by
  have hS0 : (0:ℚ) ≤ devSumSq (finiteVals x) := devSumSq_nonneg _
  have hSpos : (0:ℚ) < devSumSq (finiteVals x) := lt_of_le_of_ne hS0 (Ne.symm hS)
  have hqmean : ∀ (F : ℚ → ℚ), (∀ q, F q = 0) →
      qmean (List.map F (finiteVals x)) = 0 := by
    intro F hF
    unfold qmean
    rw [List.map_congr_left (fun a _ => hF a), List.map_const', List.sum_replicate,
      smul_zero, zero_div]
  have hsum0 : ∀ (F : ℚ → ℚ), (∀ q, F q = 0) →
      (List.map F (finiteVals x)).sum = 0 := by
    intro F hF
    rw [List.map_congr_left (fun a _ => hF a), List.map_const', List.sum_replicate, smul_zero]
  have hproj1 : List.map ((fun p : ℚ × ℚ => p.1) ∘ fun q => (q, q)) (finiteVals x)
      = finiteVals x := by
    induction finiteVals x with
    | nil => rfl
    | cons a l ih => simp only [List.map_cons, Function.comp_apply, ih]
  have hproj2 : List.map ((fun p : ℚ × ℚ => p.2) ∘ fun q => (q, q)) (finiteVals x)
      = finiteVals x := by
    induction finiteVals x with
    | nil => rfl
    | cons a l ih => simp only [List.map_cons, Function.comp_apply, ih]
  rw [calc_stats_eq x x (by rw [finitePairs_self, List.length_map]; omega)]
  refine congrArg CalcResult.full ?_
  rw [finitePairs_self]
  simp only [List.map_map, List.length_map]
  rw [hproj1, hproj2, crossDevSum_self]
  refine Stats.ext ?_ ?_ ?_ ?_ ?_ ?_ ?_
  · rfl
  · dsimp only
    exact hqmean _ (fun q => by simp)
  · dsimp only
    exact hqmean _ (fun q => by simp)
  · dsimp only
    rw [hqmean _ (fun q => by simp), Rat.cast_zero, Real.sqrt_zero]
  · dsimp only
    rw [if_pos ⟨by omega, hS, hS⟩]
    refine congrArg some ?_
    rw [Real.sqrt_mul_self (by exact_mod_cast hS0)]
    exact div_self (by exact_mod_cast hS)
  · dsimp only
    rw [if_pos ⟨by omega, hS, hS⟩]
    refine congrArg some ?_
    rw [Real.sqrt_mul_self (by exact_mod_cast hS0), div_self (by exact_mod_cast hS)]
    exact one_pow 2
  · dsimp only
    rw [if_pos hSpos]
    refine congrArg some ?_
    rw [hsum0 _ (fun q => by simp), zero_div, sub_zero]

/-- Witness for the amended claim C4 at the concrete array of 1.0 and 2.0
(two finite values, nonzero variance). -/
theorem claim4_witness :
    2 ≤ (finiteVals [FP.fin 1, FP.fin 2]).length ∧
      devSumSq (finiteVals [FP.fin 1, FP.fin 2]) ≠ 0 ∧
      calc_stats [FP.fin 1, FP.fin 2] [FP.fin 1, FP.fin 2] =
        .full ⟨(finiteVals [FP.fin 1, FP.fin 2]).length, 0, 0, 0, some 1, some 1, some 1⟩ := by
  have hfv : finiteVals [FP.fin 1, FP.fin 2] = [1, 2] := rfl
  have hS : devSumSq (finiteVals [FP.fin 1, FP.fin 2]) ≠ 0 := by
    rw [hfv]
    norm_num [devSumSq, qmean, List.sum_cons, List.sum_nil]
  exact ⟨by rw [hfv]; decide, hS, claim4_amended _ (by rw [hfv]; decide) hS⟩

theorem firstIdx_eq_none_iff (p : α → Bool) (l : List α) :
    firstIdx p l = none ↔ ∀ a ∈ l, p a = false := by
  induction l with
  | nil => simp [firstIdx]
  | cons a l ih =>
    by_cases hpa : p a
    · simp [firstIdx, hpa]
    · simp only [firstIdx, if_neg hpa, List.mem_cons]
      constructor
      · intro h b hb
        rcases hb with rfl | hb
        · simpa using hpa
        · exact ih.1 (by simpa using h) b hb
      · intro h
        have : firstIdx p l = none := ih.2 (fun b hb => h b (Or.inr hb))
        simp [this]

theorem firstIdx_eq_some_get (p : α → Bool) (l : List α) (i : Nat)
    (h : firstIdx p l = some i) : ∃ a, l.get? i = some a ∧ p a = true := by
  induction l generalizing i with
  | nil => simp [firstIdx] at h
  | cons a l ih =>
    by_cases hpa : p a
    · simp only [firstIdx, if_pos hpa] at h
      obtain rfl : (0 : Nat) = i := by simpa using h
      exact ⟨a, rfl, hpa⟩
    · simp only [firstIdx, if_neg hpa, Option.map_eq_some'] at h
      obtain ⟨j, hj, rfl⟩ := h
      obtain ⟨b, hb, hpb⟩ := ih j hj
      exact ⟨b, by simpa using hb, hpb⟩

theorem firstIdx_of_first (p : α → Bool) (l : List α) (j : Nat) (b : α)
    (hj : l.get? j = some b) (hpb : p b = true)
    (hmin : ∀ k, k < j → ∀ c, l.get? k = some c → p c = false) :
    firstIdx p l = some j := by
  induction l generalizing j with
  | nil => simp at hj
  | cons a l ih =>
    cases j with
    | zero =>
      obtain rfl : a = b := by simpa using hj
      simp [firstIdx, hpb]
    | succ j =>
      have hpa : p a = false := hmin 0 (Nat.succ_pos j) a rfl
      have hrec : firstIdx p l = some j :=
        ih j (by simpa using hj) (fun k hk c hc =>
          hmin (k + 1) (Nat.succ_lt_succ hk) c (by simpa using hc))
      simp [firstIdx, hpa, hrec]

/-- Claim C7: the channel lookup prefers an exact case-insensitive match
(returning it together with the requested column) even when substring
matches exist; with no exact match it falls back to a substring match;
with neither it fails with the lookup error listing every channel name;
and an absent dataset key fails with the key error. -/
theorem claim7_lookup_contract (datasets : List (String × Dataset)) (key query : String) :
    (datasets.lookup key = none →
      get_dfs0_speed_series datasets key query
        = .error (.keyNotFound key (datasets.map (·.1)))) ∧
    (∀ ds, datasets.lookup key = some ds →
      ((∃ nm ∈ ds.items.map (·.1), lowerStr nm = lowerStr query) →
        ∃ i nm, find_item_index (ds.items.map (·.1)) query = some i ∧
          (ds.items.map (·.1)).get? i = some nm ∧ lowerStr nm = lowerStr query ∧
          get_dfs0_speed_series datasets key query
            = .ok (ds.time.zip (((ds.items.get? i).getD ("", [])).2))) ∧
      ((∀ nm ∈ ds.items.map (·.1), lowerStr nm ≠ lowerStr query) →
        (∃ nm ∈ ds.items.map (·.1),
            containsSub (lowerStr query).data (lowerStr nm).data = true) →
        ∃ i nm, find_item_index (ds.items.map (·.1)) query = some i ∧
          (ds.items.map (·.1)).get? i = some nm ∧
          containsSub (lowerStr query).data (lowerStr nm).data = true) ∧
      ((∀ nm ∈ ds.items.map (·.1), lowerStr nm ≠ lowerStr query ∧
          containsSub (lowerStr query).data (lowerStr nm).data = false) →
        get_dfs0_speed_series datasets key query
          = .error (.itemNotFound query (ds.items.map (·.1))))) := by
  constructor
  · intro h
    simp [get_dfs0_speed_series, h]
  · intro ds hds
    refine ⟨?_, ?_, ?_⟩
    · intro hex
      obtain ⟨nm0, hmem, heq⟩ := hex
      have hne : ¬ firstIdx (fun nm => lowerStr nm == lowerStr query) (ds.items.map (·.1)) = none := by
        rw [firstIdx_eq_none_iff]
        push_neg
        exact ⟨nm0, hmem, by simp [heq]⟩
      cases hfi : firstIdx (fun nm => lowerStr nm == lowerStr query) (ds.items.map (·.1)) with
      | none => exact absurd hfi hne
      | some i =>
        obtain ⟨nm, hget, hp⟩ := firstIdx_eq_some_get _ _ _ hfi
        refine ⟨i, nm, ?_, hget, by simpa using hp, ?_⟩
        · simp [find_item_index, hfi]
        · simp [get_dfs0_speed_series, hds, find_item_index, hfi]
    · intro hnoex hsub
      obtain ⟨nm0, hmem, hsub0⟩ := hsub
      have hnone : firstIdx (fun nm => lowerStr nm == lowerStr query) (ds.items.map (·.1)) = none := by
        rw [firstIdx_eq_none_iff]
        intro a ha
        simpa using hnoex a ha
      have hne : ¬ firstIdx (fun nm => containsSub (lowerStr query).data (lowerStr nm).data)
          (ds.items.map (·.1)) = none := by
        rw [firstIdx_eq_none_iff]
        push_neg
        exact ⟨nm0, hmem, by simp [hsub0]⟩
      cases hfi : firstIdx (fun nm => containsSub (lowerStr query).data (lowerStr nm).data)
          (ds.items.map (·.1)) with
      | none => exact absurd hfi hne
      | some i =>
        obtain ⟨nm, hget, hp⟩ := firstIdx_eq_some_get _ _ _ hfi
        refine ⟨i, nm, ?_, hget, hp⟩
        simp [find_item_index, hnone, hfi]
    · intro hall
      have hnone : firstIdx (fun nm => lowerStr nm == lowerStr query) (ds.items.map (·.1)) = none := by
        rw [firstIdx_eq_none_iff]
        intro a ha
        simpa using (hall a ha).1
      have hnone2 : firstIdx (fun nm => containsSub (lowerStr query).data (lowerStr nm).data)
          (ds.items.map (·.1)) = none := by
        rw [firstIdx_eq_none_iff]
        intro a ha
        exact (hall a ha).2
      simp [get_dfs0_speed_series, hds, find_item_index, hnone, hnone2]

/-- Witness for claim C7: a dataset offering Direction and Speed, queried
with the exactly matching name speed (which is also a substring of both
nothing else) and with a missing dataset key. -/
theorem claim7_witness :
    (get_dfs0_speed_series [("a.dfs0", ⟨[0], [("Direction", [FP.fin 2]), ("Speed", [FP.fin 1])]⟩)]
        "missing.dfs0" "speed" = .error (.keyNotFound "missing.dfs0" ["a.dfs0"])) ∧
    ∃ i nm,
      find_item_index ["Direction", "Speed"] "speed" = some i ∧
      (["Direction", "Speed"] : List String).get? i = some nm ∧
      lowerStr nm = lowerStr "speed" ∧
      get_dfs0_speed_series [("a.dfs0", ⟨[0], [("Direction", [FP.fin 2]), ("Speed", [FP.fin 1])]⟩)]
        "a.dfs0" "speed" = .ok ([((0:Time), FP.fin 1)]) := by
  constructor
  · exact (claim7_lookup_contract
      [("a.dfs0", ⟨[0], [("Direction", [FP.fin 2]), ("Speed", [FP.fin 1])]⟩)]
      "missing.dfs0" "speed").1 rfl
  · have h := ((claim7_lookup_contract
      [("a.dfs0", ⟨[0], [("Direction", [FP.fin 2]), ("Speed", [FP.fin 1])]⟩)]
      "a.dfs0" "speed").2 ⟨[0], [("Direction", [FP.fin 2]), ("Speed", [FP.fin 1])]⟩ rfl).1
      ⟨"Speed", by decide, by decide⟩
    obtain ⟨i, nm, h1, h2, h3, h4⟩ := h
    have h1' : find_item_index ["Direction", "Speed"] "speed" = some i := h1
    have hfi : find_item_index ["Direction", "Speed"] "speed" = some 1 := by decide
    rw [hfi] at h1'
    have hi : 1 = i := by simpa using h1'
    subst hi
    exact ⟨1, nm, h1, h2, h3, h4⟩

/-- Claim C10: with no exact case-insensitive match present, the substring
fallback returns the lowest matching index, deterministically. -/
theorem claim10_substring_lowest_index (names : List String) (query : String)
    (j : Nat) (nm : String)
    (hnoex : ∀ x ∈ names, lowerStr x ≠ lowerStr query)
    (hj : names.get? j = some nm)
    (hsub : containsSub (lowerStr query).data (lowerStr nm).data = true)
    (hmin : ∀ k, k < j → ∀ c, names.get? k = some c →
      containsSub (lowerStr query).data (lowerStr c).data = false) :
    find_item_index names query = some j := by
  have hnone : firstIdx (fun x => lowerStr x == lowerStr query) names = none := by
    rw [firstIdx_eq_none_iff]
    intro a ha
    simpa using hnoex a ha
  have : firstIdx (fun x => containsSub (lowerStr query).data (lowerStr x).data) names = some j :=
    firstIdx_of_first _ _ j nm hj hsub hmin
  simp [find_item_index, hnone, this]

/-- Witness for claim C10: the query spd has no exact match and matches
SpdA (index 1) and SpdB (index 2) as a substring; index 1 is returned. -/
theorem claim10_witness :
    find_item_index ["Dir", "SpdA", "SpdB"] "spd" = some 1 :=
  claim10_substring_lowest_index ["Dir", "SpdA", "SpdB"] "spd" 1 "SpdA"
    (by decide) (by decide) (by decide)
    (by
      intro k hk c hc
      interval_cases k
      · obtain rfl : "Dir" = c := by simpa using hc
        decide)

theorem lookupAgg_eq_none_iff (how : String) :
    lookupAgg how = none ↔ (how ≠ "mean" ∧ how ≠ "median" ∧ how ≠ "sum") := by
  unfold lookupAgg
  split_ifs <;> simp_all

theorem alignDispatch_cases (m : String) (a b : Series) (tol : Time) :
    (alignDispatch m a b tol = .error .badMethod ↔
      (m ≠ "inner" ∧ m ≠ "outer" ∧ m ≠ "asof")) ∧
    ((∃ rows, alignDispatch m a b tol = .ok rows) ↔
      (m = "inner" ∨ m = "outer" ∨ m = "asof")) ∧
    (alignDispatch m a b tol ≠ .error .badHow) := by
  unfold alignDispatch
  by_cases h1 : m = "inner"
  · simp [h1]
  · by_cases h2 : m = "outer"
    · simp [h1, h2]
    · by_cases h3 : m = "asof"
      · simp [h1, h2, h3]
      · simp [h1, h2, h3]

/-- Claim C8, amended: align_series raises the configuration error exactly
when the strategy name is unrecognised and no resampling error precedes
it; but when resampling is requested, an unrecognised aggregation name
raises a KeyError first, even for a recognised strategy, so the strategy
check is not the only validation.  Within the modelled domain (pre-parsed
tolerance and resample rule) no further validation exists: every other
combination succeeds. -/
theorem claim8_amended (sm so : Series) (m : String) (tol : Time)
    (r : Option Nat) (how : String) :
    (align_series sm so m tol r how = .error .badHow ↔
      r.isSome = true ∧ (how ≠ "mean" ∧ how ≠ "median" ∧ how ≠ "sum")) ∧
    (align_series sm so m tol r how = .error .badMethod ↔
      ¬(r.isSome = true ∧ (how ≠ "mean" ∧ how ≠ "median" ∧ how ≠ "sum")) ∧
      (m ≠ "inner" ∧ m ≠ "outer" ∧ m ≠ "asof")) ∧
    ((∃ rows, align_series sm so m tol r how = .ok rows) ↔
      ¬(r.isSome = true ∧ (how ≠ "mean" ∧ how ≠ "median" ∧ how ≠ "sum")) ∧
      (m = "inner" ∨ m = "outer" ∨ m = "asof")) := by
  cases r with
  | none =>
    have hd := alignDispatch_cases m (sortSeries sm) (sortSeries so) tol
    simp only [align_series, Option.isSome_none, Bool.false_eq_true, false_and,
      not_false_iff, true_and]
    exact ⟨by simpa using hd.2.2, hd.1, hd.2.1⟩
  | some w =>
    cases hla : lookupAgg how with
    | none =>
      have hhow := (lookupAgg_eq_none_iff how).1 hla
      simp only [align_series, hla, Option.isSome_some, true_and]
      refine ⟨by simp [hhow], ?_, ?_⟩
      · simp [hhow]
      · simp [hhow]
    | some agg =>
      have hhow : ¬ (how ≠ "mean" ∧ how ≠ "median" ∧ how ≠ "sum") := by
        intro hcon
        rw [(lookupAgg_eq_none_iff how).2 hcon] at hla
        exact Option.noConfusion hla
      have hd := alignDispatch_cases m (resampleSeries w agg (sortSeries sm))
        (resampleSeries w agg (sortSeries so)) tol
      simp only [align_series, hla, Option.isSome_some, true_and]
      exact ⟨by simpa [hhow] using hd.2.2, by simpa [hhow] using hd.1,
        by simpa [hhow] using hd.2.1⟩

/-- Counterexample to claim C8 as stated: with resampling enabled and the
unrecognised aggregation name max, align_series raises the KeyError even
though the strategy name inner is recognised, so the strategy check is not
the only argument validation. -/
theorem claim8_counterexample :
    align_series [] [] "inner" 0 (some 1) "max" = .error .badHow ∧
      CompErr.badHow ≠ CompErr.badMethod :=
  ⟨rfl, by decide⟩

theorem lookup_cons {α : Type} (k ak : String) (av : α) (d : List (String × α)) :
    (((ak, av) :: d).lookup k) = if k = ak then some av else d.lookup k := by
  by_cases hk : k = ak
  · have h1 : (k == ak) = true := beq_iff_eq.2 hk
    simp [List.lookup, h1, if_pos hk]
  · have h1 : (k == ak) = false := beq_eq_false_iff_ne.2 hk
    simp [List.lookup, h1, if_neg hk]

theorem lookup_map_replace_ne {α : Type} (d : List (String × α)) (k' k : String)
    (v : α) (hne : k ≠ k') :
    (d.map (fun p => if p.1 = k' then (k', v) else p)).lookup k = d.lookup k := by
  induction d with
  | nil => rfl
  | cons a d ih =>
    obtain ⟨ak, av⟩ := a
    simp only [List.map_cons]
    by_cases ha : ak = k'
    · rw [show ((if (ak, av).1 = k' then (k', v) else (ak, av)) : String × α) = (k', v)
        from if_pos ha]
      rw [lookup_cons, lookup_cons, if_neg (ha ▸ hne), if_neg (fun h : k = ak => hne (h.trans ha))]
      exact ih
    · rw [show ((if (ak, av).1 = k' then (k', v) else (ak, av)) : String × α) = (ak, av)
        from if_neg ha]
      rw [lookup_cons, lookup_cons]
      by_cases hak : k = ak
      · rw [if_pos hak, if_pos hak]
      · rw [if_neg hak, if_neg hak]
        exact ih

theorem lookup_map_replace {α : Type} (k' k : String) (v : α) :
    ∀ d : List (String × α), (d.lookup k').isSome →
      (d.map (fun p => if p.1 = k' then (k', v) else p)).lookup k
        = if k = k' then some v else d.lookup k := by
  intro d
  induction d with
  | nil => intro hs; simp at hs
  | cons a d ih =>
    obtain ⟨ak, av⟩ := a
    intro hs
    simp only [List.map_cons]
    by_cases ha : ak = k'
    · rw [show ((if (ak, av).1 = k' then (k', v) else (ak, av)) : String × α) = (k', v)
        from if_pos ha]
      rw [lookup_cons, lookup_cons]
      by_cases hk : k = k'
      · rw [if_pos hk, if_pos hk]
      · rw [if_neg hk, if_neg hk, if_neg (fun h : k = ak => hk (h.trans ha))]
        exact lookup_map_replace_ne d k' k v hk
    · have hs' : (d.lookup k').isSome := by
        rw [lookup_cons, if_neg (fun h : k' = ak => ha h.symm)] at hs
        exact hs
      rw [show ((if (ak, av).1 = k' then (k', v) else (ak, av)) : String × α) = (ak, av)
        from if_neg ha]
      rw [lookup_cons, lookup_cons]
      by_cases hak : k = ak
      · rw [if_pos hak, if_pos hak, if_neg (fun h : k = k' => ha (hak.symm.trans h))]
      · rw [if_neg hak, if_neg hak]
        exact ih hs'

theorem dictInsert_lookup {α : Type} (d : List (String × α)) (k' : String) (v : α)
    (k : String) :
    (dictInsert d k' v).lookup k = if k = k' then some v else d.lookup k := by
  unfold dictInsert
  by_cases hs : (d.lookup k').isSome
  · rw [if_pos hs]
    exact lookup_map_replace k' k v d hs
  · rw [if_neg hs]
    rw [List.lookup_append]
    by_cases hk : k = k'
    · rw [if_pos hk]
      have hd : d.lookup k = none := by
        cases h : d.lookup k with
        | none => rfl
        | some w =>
          rw [← hk] at hs
          rw [h] at hs
          simp at hs
      rw [hd, lookup_cons]
      simp [if_pos hk, Option.or]
    · rw [if_neg hk, lookup_cons, if_neg hk]
      simp [List.lookup, Option.or_none]

theorem or_assoc_option {α : Type} (a b c : Option α) :
    ((a.or b).or c) = a.or (b.or c) := by
  cases a <;> simp [Option.or]

theorem bulkFold_lookup {α : Type} (fs : String → LoadOutcome α)
    (fileName : String → String) (files : List String) :
    ∀ (d : List (String × α)) (k : String),
      (files.foldl (fun d f =>
        match fs f with
        | .loaded v => dictInsert d (fileName f) v
        | _ => d) d).lookup k
        = (((loadedPairs fs fileName files).reverse).lookup k).or (d.lookup k) := by
  induction files with
  | nil => intro d k; simp [loadedPairs, Option.or]
  | cons f files ih =>
    intro d k
    simp only [List.foldl_cons]
    cases hf : fs f with
    | loaded v =>
      rw [ih (dictInsert d (fileName f) v) k]
      simp only [loadedPairs, List.filterMap_cons, hf]
      rw [List.reverse_cons, List.lookup_append, or_assoc_option]
      congr 1
      rw [dictInsert_lookup]
      by_cases hk : k = fileName f
      · rw [if_pos hk, hk]
        simp [List.lookup, Option.or]
      · have h1 : (k == fileName f) = false := beq_eq_false_iff_ne.2 hk
        simp [List.lookup, h1, if_neg hk, Option.or]
    | missing =>
      rw [ih d k]
      simp only [loadedPairs, List.filterMap_cons, hf]
    | failed =>
      rw [ih d k]
      simp only [loadedPairs, List.filterMap_cons, hf]

/-- Claim C9, amended: both bulk loaders skip missing and failing paths
without propagating an exception (the embedding is a total fold over the
whole input list), and return a mapping keyed by basename whose entry for
any key equals the value of the last successfully loaded path with that
basename; a basename of a loaded file is always present, and nothing else
is.  When several loaded paths share a basename, earlier ones are
overwritten, so the claimed mapping of exactly the successfully loaded
files holds only up to that last-wins collision rule. -/
theorem claim9_amended {α β : Type} (fs : String → LoadOutcome α)
    (gs : String → LoadOutcome β) (fileName : String → String)
    (files : List String) (k : String) :
    (load_dfs0s fs fileName files).lookup k
      = ((loadedPairs fs fileName files).reverse).lookup k ∧
    (load_mat_files gs fileName files).lookup k
      = ((loadedPairs gs fileName files).reverse).lookup k := by
  constructor
  · have h := bulkFold_lookup fs fileName files [] k
    simpa [load_dfs0s, List.lookup, Option.or_none] using h
  · have h := bulkFold_lookup gs fileName files [] k
    simpa [load_mat_files, List.lookup, Option.or_none] using h

/-- Counterexample to claim C9 as stated: two distinct existing paths with
the same basename both load successfully, yet the returned mapping holds
only the second dataset; the first successfully loaded file is absent, so
the mapping does not contain exactly the successfully loaded files. -/
theorem claim9_counterexample :
    load_dfs0s (fun p => if p = "run1/a.dfs0" then .loaded (1:ℕ) else .loaded 2)
        (fun _ => "a.dfs0") ["run1/a.dfs0", "run2/a.dfs0"] = [("a.dfs0", 2)] ∧
      (fun p => if p = "run1/a.dfs0" then LoadOutcome.loaded (1:ℕ) else .loaded 2)
        "run1/a.dfs0" = .loaded 1 ∧
      (1:ℕ) ≠ 2 :=
  ⟨rfl, rfl, by decide⟩

theorem sortSeries_eq_of_sorted {s : Series} (h : SSorted s) : sortSeries s = s :=
  List.Sorted.insertionSort_eq (h.imp le_of_lt)

theorem keysOf_nodup {s : Series} (h : SSorted s) : (s.map (·.1)).Nodup :=
  (List.pairwise_map.2 h).imp ne_of_lt

theorem keysOf_sorted {s : Series} (h : SSorted s) :
    List.Sorted (· < ·) (s.map (·.1)) :=
  List.pairwise_map.2 h

theorem lookup_eq_none_of_not_mem {s : Series} {t : Time}
    (h : t ∉ s.map (·.1)) : s.lookup t = none := by
  induction s with
  | nil => rfl
  | cons a s ih =>
    obtain ⟨ak, av⟩ := a
    simp only [List.map_cons, List.mem_cons, not_or] at h
    have h1 : (t == ak) = false := beq_eq_false_iff_ne.2 h.1
    simp [List.lookup, h1, ih h.2]

theorem lookup_some_mem {s : Series} {t : Time} {v : FP}
    (h : s.lookup t = some v) : (t, v) ∈ s := by
  induction s with
  | nil => simp [List.lookup] at h
  | cons a s ih =>
    obtain ⟨ak, av⟩ := a
    cases hbeq : (t == ak) with
    | true =>
      have ht : t = ak := beq_iff_eq.1 hbeq
      simp only [List.lookup, hbeq, cond_true, Option.some.injEq] at h
      subst ht
      subst h
      exact List.mem_cons_self _ _
    | false =>
      simp only [List.lookup, hbeq, cond_false] at h
      exact List.mem_cons_of_mem _ (ih h)

theorem lookup_eq_some_of_mem {s : Series} {t : Time} {v : FP}
    (hnd : (s.map (·.1)).Nodup) (h : (t, v) ∈ s) : s.lookup t = some v := by
  induction s with
  | nil => simp at h
  | cons a s ih =>
    obtain ⟨ak, av⟩ := a
    simp only [List.map_cons, List.nodup_cons] at hnd
    rcases List.mem_cons.1 h with heq | hmem
    · obtain ⟨rfl, rfl⟩ := Prod.mk.injEq .. ▸ heq
      have h1 : (t == t) = true := beq_iff_eq.2 rfl
      simp [List.lookup, h1]
    · have hne : t ≠ ak := by
        intro heq2
        subst heq2
        exact hnd.1 (List.mem_map.2 ⟨(t, v), hmem, rfl⟩)
      have h1 : (t == ak) = false := beq_eq_false_iff_ne.2 hne
      simp [List.lookup, h1, ih hnd.2 hmem]

theorem dropna_innerJoin_length (a b : Series) :
    (dropna (innerJoin a b)).length = goodSharedCount a b := by
  induction a with
  | nil => rfl
  | cons p a ih =>
    obtain ⟨t, v⟩ := p
    simp only [innerJoin, goodSharedCount, List.filterMap_cons] at ih ⊢
    cases hb : b.lookup t with
    | none =>
      simp only [Option.map_none, List.filter_cons, hb]
      simp only [dropna] at ih ⊢
      simpa using ih
    | some w =>
      by_cases hv : v = FP.nan
      · subst hv
        simp only [Option.map_some, List.filter_cons, hb]
        simp only [dropna, List.filter_cons] at ih ⊢
        simpa using ih
      · by_cases hw : w = FP.nan
        · subst hw
          simp only [Option.map_some, List.filter_cons, hb]
          simp only [dropna, List.filter_cons] at ih ⊢
          simp [hv] at ih ⊢
          exact ih
        · simp only [Option.map_some, List.filter_cons, hb]
          simp only [dropna, List.filter_cons] at ih ⊢
          simp [hv, hw] at ih ⊢
          exact ih

theorem innerJoin_cons_none (t : Time) (v : FP) (a b : Series)
    (hb : b.lookup t = none) :
    innerJoin ((t, v) :: a) b = innerJoin a b := by
  simp [innerJoin, List.filterMap_cons, hb]

theorem innerJoin_cons_some (t : Time) (v w : FP) (a b : Series)
    (hb : b.lookup t = some w) :
    innerJoin ((t, v) :: a) b = (t, v, w) :: innerJoin a b := by
  simp [innerJoin, List.filterMap_cons, hb]

theorem dropna_cons (r : Row) (rows : List Row) :
    dropna (r :: rows) =
      if r.2.1 ≠ FP.nan ∧ r.2.2 ≠ FP.nan then r :: dropna rows else dropna rows := by
  simp only [dropna, List.filter_cons]
  by_cases h : r.2.1 ≠ FP.nan ∧ r.2.2 ≠ FP.nan
  · rw [if_pos (by simpa using h), if_pos h]
  · rw [if_neg (by simpa using h), if_neg h]

theorem dropna_innerJoin_keys_sublist (a b : Series) :
    List.Sublist ((dropna (innerJoin a b)).map (·.1)) (a.map (·.1)) := by
  induction a with
  | nil => exact List.Sublist.refl _
  | cons p a ih =>
    obtain ⟨t, v⟩ := p
    cases hb : b.lookup t with
    | none =>
      rw [innerJoin_cons_none t v a b hb]
      simp only [List.map_cons]
      exact ih.cons t
    | some w =>
      rw [innerJoin_cons_some t v w a b hb, dropna_cons]
      by_cases hc : ((t, v, w) : Row).2.1 ≠ FP.nan ∧ ((t, v, w) : Row).2.2 ≠ FP.nan
      · rw [if_pos hc]
        simp only [List.map_cons]
        exact ih.cons₂ t
      · rw [if_neg hc]
        simp only [List.map_cons]
        exact ih.cons t

/-- Claim C1, amended: with unique sorted timestamps (the Named Series
invariant) and no resampling, align_series with method inner returns a
table with one row per exactly-shared timestamp at which both carried
values are non-missing (a shared timestamp whose model or observed value
is NaN is dropped by the final dropna), and no two rows share a
timestamp. -/
theorem claim1_amended (s_model s_obs : Series) (tol : Time) (how : String)
    (hm : SSorted s_model) (ho : SSorted s_obs) :
    ∃ rows, align_series s_model s_obs "inner" tol none how = .ok rows ∧
      rows.length = goodSharedCount s_model s_obs ∧
      (rows.map (·.1)).Nodup := by
  refine ⟨dropna (innerJoin s_model s_obs), ?_, dropna_innerJoin_length _ _, ?_⟩
  · show alignDispatch "inner" (sortSeries s_model) (sortSeries s_obs) tol = _
    rw [sortSeries_eq_of_sorted hm, sortSeries_eq_of_sorted ho]
    rfl
  · exact (keysOf_nodup hm).sublist (dropna_innerJoin_keys_sublist s_model s_obs)

/-- Counterexample to claim C1 as stated: one timestamp is exactly shared,
but the model value there is NaN, so dropna removes the row and the output
has zero rows, not one. -/
theorem claim1_counterexample :
    align_series [((0:Time), FP.nan)] [((0:Time), FP.fin 1)] "inner" 0 none "mean"
        = .ok [] ∧
      sharedCount [((0:Time), FP.nan)] [((0:Time), FP.fin 1)] = 1 :=
  ⟨rfl, rfl⟩

/-- Witness for the amended claim C1 on concrete sorted series sharing one
good timestamp. -/
theorem claim1_witness :
    ∃ rows, align_series [((0:Time), FP.fin 1), (10, FP.fin 2)]
        [((0:Time), FP.fin 3), (7, FP.fin 4)] "inner" 0 none "mean" = .ok rows ∧
      rows.length = goodSharedCount [((0:Time), FP.fin 1), (10, FP.fin 2)]
        [((0:Time), FP.fin 3), (7, FP.fin 4)] ∧
      (rows.map (·.1)).Nodup :=
  claim1_amended _ _ _ _ (by decide) (by decide)

instance : IsAntisymm Time (fun a b : Time => a < b) :=
  ⟨fun a _ h1 h2 => absurd (lt_trans h1 h2) (lt_irrefl a)⟩

theorem mem_sortedUnion (a b : List Time) (t : Time) :
    t ∈ sortedUnion a b ↔ t ∈ a ∨ t ∈ b := by
  unfold sortedUnion
  rw [List.mem_dedup, (List.perm_insertionSort _ _).mem_iff, List.mem_append]

theorem sortedUnion_sorted (a b : List Time) :
    List.Sorted (· < ·) (sortedUnion a b) := by
  have h1 : List.Sorted (· ≤ ·) ((a ++ b).insertionSort (· ≤ ·)) :=
    List.sorted_insertionSort _ _
  have h2 : List.Sorted (· ≤ ·) (sortedUnion a b) := h1.sublist (List.dedup_sublist _)
  have h3 : (sortedUnion a b).Nodup := List.nodup_dedup _
  have h4 : List.Pairwise (fun x y : Time => x ≤ y ∧ x ≠ y) (sortedUnion a b) :=
    List.Pairwise.and h2 h3
  exact h4.imp (fun h => lt_of_le_of_ne h.1 h.2)

/-- Row of the aligned table at one timestamp, determined by the two
series: present exactly when both series carry a non-NaN value there.
Proof device relating the inner and outer paths. -/
def joinRow (a b : Series) (t : Time) : Option Row :=
  match a.lookup t, b.lookup t with
  | some v, some w => if v ≠ FP.nan ∧ w ≠ FP.nan then some (t, v, w) else none
  | _, _ => none

theorem dropna_innerJoin_eq_filterMap (b : Series) :
    ∀ a : Series, (a.map (·.1)).Nodup →
      dropna (innerJoin a b) = (a.map (·.1)).filterMap (joinRow a b) := by
  intro a
  induction a with
  | nil => intro _; rfl
  | cons p a ih =>
    intro hnd
    obtain ⟨t, v⟩ := p
    simp only [List.map_cons, List.nodup_cons] at hnd
    obtain ⟨ht, hnd'⟩ := hnd
    have hhead : ((t, v) :: a).lookup t = some v := by
      have h1 : (t == t) = true := beq_iff_eq.2 rfl
      simp [List.lookup, h1]
    have htail : ∀ t' ∈ a.map (·.1), joinRow ((t, v) :: a) b t' = joinRow a b t' := by
      intro t' ht'
      have hne : t' ≠ t := fun h => ht (h ▸ ht')
      have hlk : ((t, v) :: a).lookup t' = a.lookup t' := by
        have h1 : (t' == t) = false := beq_eq_false_iff_ne.2 hne
        simp [List.lookup, h1]
      simp [joinRow, hlk]
    cases hb : b.lookup t with
    | none =>
      rw [innerJoin_cons_none t v a b hb, List.map_cons, List.filterMap_cons]
      have hj : joinRow ((t, v) :: a) b t = none := by
        simp [joinRow, hhead, hb]
      rw [hj, List.filterMap_congr htail]
      exact ih hnd'
    | some w =>
      rw [innerJoin_cons_some t v w a b hb, dropna_cons, List.map_cons,
        List.filterMap_cons]
      have hj : joinRow ((t, v) :: a) b t =
          if v ≠ FP.nan ∧ w ≠ FP.nan then some (t, v, w) else none := by
        simp [joinRow, hhead, hb]
      rw [hj, List.filterMap_congr htail, ih hnd']
      by_cases hc : v ≠ FP.nan ∧ w ≠ FP.nan
      · rw [if_pos hc, if_pos hc]
      · rw [if_neg hc, if_neg hc]

theorem dropna_map_eq_filterMap_joinRow (a b : Series) :
    ∀ U : List Time,
      dropna (U.map (fun t => (t, lookupVal a t, lookupVal b t)))
        = U.filterMap (joinRow a b) := by
  intro U
  induction U with
  | nil => rfl
  | cons t U ih =>
    simp only [List.map_cons, List.filterMap_cons]
    rw [dropna_cons]
    cases ha : a.lookup t with
    | none =>
      have hj : joinRow a b t = none := by simp [joinRow, ha]
      have hv : lookupVal a t = FP.nan := by simp [lookupVal, ha]
      rw [hj, if_neg (by simp [hv]), ih]
    | some v =>
      have hv : lookupVal a t = v := by simp [lookupVal, ha]
      cases hb : b.lookup t with
      | none =>
        have hj : joinRow a b t = none := by simp [joinRow, ha, hb]
        have hw : lookupVal b t = FP.nan := by simp [lookupVal, hb]
        rw [hj, if_neg (by simp [hw]), ih]
      | some w =>
        have hw : lookupVal b t = w := by simp [lookupVal, hb]
        have hj : joinRow a b t =
            if v ≠ FP.nan ∧ w ≠ FP.nan then some (t, v, w) else none := by
          simp [joinRow, ha, hb]
        rw [hv, hw, hj, ih]
        by_cases hc : v ≠ FP.nan ∧ w ≠ FP.nan
        · rw [if_pos hc, if_pos hc]
        · rw [if_neg hc, if_neg hc]

theorem filterMap_support (g : Time → Option Row) (ka : List Time) :
    ∀ U : List Time, (∀ t ∈ U, t ∉ ka → g t = none) →
      U.filterMap g = (U.filter (fun t => decide (t ∈ ka))).filterMap g := by
  intro U
  induction U with
  | nil => intro _; rfl
  | cons t U ih =>
    intro h
    rw [List.filterMap_cons, List.filter_cons]
    by_cases hm : t ∈ ka
    · rw [if_pos (by simpa using hm), List.filterMap_cons]
      rw [ih (fun x hx hnx => h x (List.mem_cons_of_mem _ hx) hnx)]
    · rw [if_neg (by simpa using hm)]
      rw [h t (List.mem_cons_self _ _) hm]
      exact ih (fun x hx hnx => h x (List.mem_cons_of_mem _ hx) hnx)

theorem filter_mem_eq_self (U ka : List Time) (hU : List.Sorted (· < ·) U)
    (hka : List.Sorted (· < ·) ka) (hsub : ∀ t ∈ ka, t ∈ U) :
    U.filter (fun t => decide (t ∈ ka)) = ka := by
  have hUnd : U.Nodup := hU.imp ne_of_lt
  have hkand : ka.Nodup := hka.imp ne_of_lt
  apply List.eq_of_perm_of_sorted ?_ ?_ hka
  · apply (List.perm_ext_iff_of_nodup (hUnd.sublist (List.filter_sublist _)) hkand).2
    intro x
    simp only [List.mem_filter, decide_eq_true_eq]
    exact ⟨fun hx => hx.2, fun hx => ⟨hsub x hx, hx⟩⟩
  · exact hU.sublist (List.filter_sublist _)

theorem dropna_outerJoin_eq_inner (a b : Series) (ha : SSorted a) :
    dropna (outerJoin a b) = dropna (innerJoin a b) := by
  have hkaS : List.Sorted (· < ·) (a.map (·.1)) := keysOf_sorted ha
  have hkaN := keysOf_nodup ha
  have hU : List.Sorted (· < ·) (sortedUnion (keysOf a) (keysOf b)) :=
    sortedUnion_sorted _ _
  have hstep1 : dropna (outerJoin a b)
      = (sortedUnion (keysOf a) (keysOf b)).filterMap (joinRow a b) :=
    dropna_map_eq_filterMap_joinRow a b _
  rw [hstep1]
  simp only [keysOf] at hU ⊢
  rw [filterMap_support (joinRow a b) (a.map (·.1)) _
    (fun t _ hn => by simp [joinRow, lookup_eq_none_of_not_mem hn])]
  rw [filter_mem_eq_self _ _ hU hkaS
    (fun t ht => (mem_sortedUnion _ _ t).2 (Or.inl ht))]
  exact (dropna_innerJoin_eq_filterMap b a hkaN).symm

theorem ssorted_map_range (n : Nat) (F : Nat → Time × FP)
    (hF : ∀ j k, j < k → (F j).1 < (F k).1) : SSorted ((List.range n).map F) :=
  List.pairwise_map.2 ((List.pairwise_lt_range n).imp (fun h => hF _ _ h))

theorem resampleSeries_ssorted (w : Nat) (agg : List FP → FP) (s : Series) :
    SSorted (resampleSeries w agg s) := by
  cases s with
  | nil => exact List.Pairwise.nil
  | cons p0 s' =>
    cases w with
    | zero =>
      simp only [resampleSeries, Nat.div_zero, Nat.zero_add, List.range_succ,
        List.range_zero, List.nil_append, List.map_cons, List.map_nil]
      exact List.pairwise_singleton _ _
    | succ w' =>
      simp only [resampleSeries]
      refine ssorted_map_range _ _ (fun j k hjk => ?_)
      dsimp only
      have h1 : Int.ofNat j < Int.ofNat k := Int.ofNat_lt.2 hjk
      have h2 : (0 : Int) < ((w' + 1 : Nat) : Int) := by positivity
      have h3 := mul_lt_mul_of_pos_right h1 h2
      linarith

theorem alignDispatch_inner_eq (a b : Series) (tol : Time) :
    alignDispatch "inner" a b tol = .ok (dropna (innerJoin a b)) := rfl

theorem alignDispatch_outer_eq (a b : Series) (tol : Time) :
    alignDispatch "outer" a b tol = .ok (dropna (outerJoin a b)) := rfl

theorem alignDispatch_asof_eq (a b : Series) (tol : Time) :
    alignDispatch "asof" a b tol = .ok (dropna (asofJoin a b tol)) := rfl

/-- Claim C3: for well-formed (sorted, unique-timestamp) series and every
resampling configuration, align_series with method outer returns exactly
the table align_series with method inner returns: the union join followed
by the unconditional dropna is behaviourally identical to the
intersection join. -/
theorem claim3_outer_equals_inner (s_model s_obs : Series) (tol : Time)
    (r : Option Nat) (how : String) (hm : SSorted s_model) (ho : SSorted s_obs) :
    align_series s_model s_obs "outer" tol r how
      = align_series s_model s_obs "inner" tol r how := by
  cases r with
  | none =>
    show alignDispatch "outer" (sortSeries s_model) (sortSeries s_obs) tol
      = alignDispatch "inner" (sortSeries s_model) (sortSeries s_obs) tol
    rw [sortSeries_eq_of_sorted hm, sortSeries_eq_of_sorted ho,
      alignDispatch_outer_eq, alignDispatch_inner_eq]
    exact congrArg Except.ok (dropna_outerJoin_eq_inner s_model s_obs hm)
  | some w =>
    cases hla : lookupAgg how with
    | none => simp only [align_series, hla]
    | some agg =>
      simp only [align_series, hla]
      rw [alignDispatch_outer_eq, alignDispatch_inner_eq]
      exact congrArg Except.ok
        (dropna_outerJoin_eq_inner _ _ (resampleSeries_ssorted _ agg (sortSeries s_model)))

/-- Witness for claim C3 on concrete series with an hourly-style resample
of width 2 and mean aggregation. -/
theorem claim3_witness :
    align_series [((0:Time), FP.fin 1), (3, FP.fin 2)] [((1:Time), FP.fin 5)]
        "outer" 3 (some 2) "mean"
      = align_series [((0:Time), FP.fin 1), (3, FP.fin 2)] [((1:Time), FP.fin 5)]
        "inner" 3 (some 2) "mean" :=
  claim3_outer_equals_inner _ _ _ _ _ (by decide) (by decide)

theorem betterB_self (t : Time) (x : Time × FP) : betterB t x x = false := by
  simp only [betterB]
  rw [decide_eq_false_iff_not]
  rintro (h | ⟨-, h⟩) <;> exact lt_irrefl _ h

theorem better_arith_trans (dx dy dz kx ky kz : Int)
    (h1 : dx < dy ∨ (dx = dy ∧ ky < kx)) (h2 : dy < dz ∨ (dy = dz ∧ kz < ky)) :
    dx < dz ∨ (dx = dz ∧ kz < kx) := by omega

theorem better_arith_not_trans (dx dy dz kx ky kz : Int)
    (h1 : ¬(dx < dy ∨ (dx = dy ∧ ky < kx))) (h2 : ¬(dy < dz ∨ (dy = dz ∧ kz < ky))) :
    ¬(dx < dz ∨ (dx = dz ∧ kz < kx)) := by omega

theorem better_arith_antisymm (dx dy kx ky : Int)
    (h1 : ¬(dx < dy ∨ (dx = dy ∧ ky < kx))) (h2 : ¬(dy < dx ∨ (dy = dx ∧ kx < ky))) :
    dx = dy ∧ kx = ky := by omega

theorem better_arith_optimal (dp dt kp kt : Int)
    (h : dt < dp ∨ (dt = dp ∧ kp ≤ kt)) : ¬(dp < dt ∨ (dp = dt ∧ kt < kp)) := by omega

theorem betterB_trans (t : Time) (x y z : Time × FP)
    (h1 : betterB t x y = true) (h2 : betterB t y z = true) :
    betterB t x z = true := by
  simp only [betterB, decide_eq_true_eq] at h1 h2 ⊢
  exact better_arith_trans _ _ _ _ _ _ h1 h2

theorem not_betterB_trans (t : Time) (x y z : Time × FP)
    (h1 : betterB t x y = false) (h2 : betterB t y z = false) :
    betterB t x z = false := by
  simp only [betterB, decide_eq_false_iff_not] at h1 h2 ⊢
  exact better_arith_not_trans _ _ _ _ _ _ h1 h2

theorem betterB_antisymm (t : Time) (x y : Time × FP)
    (h1 : betterB t x y = false) (h2 : betterB t y x = false) :
    |x.1 - t| = |y.1 - t| ∧ x.1 = y.1 := by
  simp only [betterB, decide_eq_false_iff_not] at h1 h2
  exact better_arith_antisymm _ _ _ _ h1 h2

theorem foldl_nearStep_ne_none (t : Time) :
    ∀ (l : List (Time × FP)) (b : Time × FP),
      ∃ m, l.foldl (nearStep t) (some b) = some m := by
  intro l
  induction l with
  | nil => intro b; exact ⟨b, rfl⟩
  | cons c l ih =>
    intro b
    simp only [List.foldl_cons]
    by_cases h : betterB t c b
    · simpa [nearStep, h] using ih c
    · simpa [nearStep, h] using ih b

theorem foldl_nearStep_mem (t : Time) :
    ∀ (l : List (Time × FP)) (b m : Time × FP),
      l.foldl (nearStep t) (some b) = some m → m = b ∨ m ∈ l := by
  intro l
  induction l with
  | nil =>
    intro b m h
    obtain rfl : b = m := by simpa using h
    exact Or.inl rfl
  | cons c l ih =>
    intro b m h
    simp only [List.foldl_cons] at h
    by_cases hc : betterB t c b
    · rcases ih c m (by simpa [nearStep, hc] using h) with rfl | hm
      · exact Or.inr (List.mem_cons_self _ _)
      · exact Or.inr (List.mem_cons_of_mem _ hm)
    · rcases ih b m (by simpa [nearStep, hc] using h) with rfl | hm
      · exact Or.inl rfl
      · exact Or.inr (List.mem_cons_of_mem _ hm)

theorem foldl_nearStep_opt (t : Time) :
    ∀ (l : List (Time × FP)) (b m : Time × FP),
      l.foldl (nearStep t) (some b) = some m →
        betterB t b m = false ∧ ∀ p ∈ l, betterB t p m = false := by
  intro l
  induction l with
  | nil =>
    intro b m h
    obtain rfl : b = m := by simpa using h
    exact ⟨betterB_self t b, by simp⟩
  | cons c l ih =>
    intro b m h
    simp only [List.foldl_cons] at h
    by_cases hc : betterB t c b
    · obtain ⟨hcm, hl⟩ := ih c m (by simpa [nearStep, hc] using h)
      have hbm : betterB t b m = false := by
        cases hbm : betterB t b m with
        | false => rfl
        | true =>
          have h2 := betterB_trans t c b m hc hbm
          rw [hcm] at h2
          exact Bool.noConfusion h2
      refine ⟨hbm, fun p hp => ?_⟩
      rcases List.mem_cons.1 hp with rfl | hp'
      · exact hcm
      · exact hl p hp'
    · have hcb : betterB t c b = false := by
        revert hc
        cases betterB t c b <;> simp
      obtain ⟨hbm, hl⟩ := ih b m (by simpa [nearStep, hc] using h)
      refine ⟨hbm, fun p hp => ?_⟩
      rcases List.mem_cons.1 hp with rfl | hp'
      · exact not_betterB_trans t p b m hcb hbm
      · exact hl p hp'

theorem eq_of_mem_keys_nodup {s : Series} (hnd : (s.map (·.1)).Nodup)
    {x y : Time × FP} (hx : x ∈ s) (hy : y ∈ s) (hxy : x.1 = y.1) : x = y := by
  induction s with
  | nil => simp at hx
  | cons a s ih =>
    simp only [List.map_cons, List.nodup_cons] at hnd
    rcases List.mem_cons.1 hx with rfl | hx'
    · rcases List.mem_cons.1 hy with rfl | hy'
      · rfl
      · exact absurd (List.mem_map.2 ⟨y, hy', hxy.symm⟩) hnd.1
    · rcases List.mem_cons.1 hy with rfl | hy'
      · exact absurd (List.mem_map.2 ⟨x, hx', hxy⟩) hnd.1
      · exact ih hnd.2 hx' hy'

theorem nearest_eq_of_opt (t : Time) (so : Series) (hnd : (so.map (·.1)).Nodup)
    (x : Time × FP) (hx : x ∈ so) (hopt : ∀ p ∈ so, betterB t p x = false) :
    nearest? so t = some x := by
  cases so with
  | nil => simp at hx
  | cons c l =>
    obtain ⟨m, hm⟩ := foldl_nearStep_ne_none t l c
    obtain ⟨hcm, hlm⟩ := foldl_nearStep_opt t l c m hm
    have hmem' : m ∈ c :: l := by
      rcases foldl_nearStep_mem t l c m hm with rfl | h
      · exact List.mem_cons_self _ _
      · exact List.mem_cons_of_mem _ h
    have hmx : betterB t m x = false := hopt m hmem'
    have hxm : betterB t x m = false := by
      rcases List.mem_cons.1 hx with rfl | hx'
      · exact hcm
      · exact hlm x hx'
    obtain ⟨-, hkey⟩ := betterB_antisymm t x m hxm hmx
    have hx_eq : x = m := eq_of_mem_keys_nodup hnd hx hmem' hkey
    show l.foldl (nearStep t) (nearStep t none c) = some x
    rw [show nearStep t none c = some c from rfl, hm, hx_eq]

theorem mem_of_nearest_some {so : Series} {t : Time} {c : Time × FP}
    (hn : nearest? so t = some c) : c ∈ so := by
  cases so with
  | nil => exact absurd hn (by simp [nearest?])
  | cons a l =>
    have h : l.foldl (nearStep t) (some a) = some c := hn
    rcases foldl_nearStep_mem t l a c h with rfl | h'
    · exact List.mem_cons_self _ _
    · exact List.mem_cons_of_mem _ h'

theorem nearestWithin_nan_of_far (so : Series) (t tol : Time)
    (h : ∀ p ∈ so, tol < |p.1 - t|) : nearestWithin so t tol = FP.nan := by
  unfold nearestWithin
  cases hn : nearest? so t with
  | none => rfl
  | some c =>
    show (if |c.1 - t| ≤ tol then c.2 else FP.nan) = FP.nan
    rw [if_neg (not_le.2 (h c (mem_of_nearest_some hn)))]

theorem mem_dropna_asofJoin (sm so : Series) (tol : Time) (t : Time) (v : FP)
    (hmem : (t, v) ∈ sm) (hv : v ≠ FP.nan) (hw : nearestWithin so t tol ≠ FP.nan) :
    (t, v, nearestWithin so t tol) ∈ dropna (asofJoin sm so tol) := by
  unfold dropna asofJoin
  refine List.mem_filter.2 ⟨List.mem_map.2 ⟨(t, v), hmem, rfl⟩, ?_⟩
  exact decide_eq_true ⟨hv, hw⟩

theorem dropna_asofJoin_mem_inv (sm so : Series) (tol : Time) (r : Row)
    (hr : r ∈ dropna (asofJoin sm so tol)) :
    (∃ p ∈ sm, r = (p.1, p.2, nearestWithin so p.1 tol)) ∧
      r.2.1 ≠ FP.nan ∧ r.2.2 ≠ FP.nan := by
  unfold dropna asofJoin at hr
  have h1 := List.mem_filter.1 hr
  refine ⟨?_, of_decide_eq_true h1.2⟩
  obtain ⟨p, hp, heq⟩ := List.mem_map.1 h1.1
  exact ⟨p, hp, heq.symm⟩

/-- Claim C2, amended: for well-formed series and no resampling, asof
alignment drops each model timestamp whose every observed point lies
strictly beyond the tolerance, and pairs a model timestamp with the value
at the nearest observed timestamp (distance ties resolved towards the
later timestamp, as pandas does) whenever that nearest point lies within
the tolerance and neither value is NaN; a NaN on either side makes the
final dropna remove the row instead of pairing it. -/
theorem claim2_amended (s_model s_obs : Series) (tol : Time) (how : String)
    (hm : SSorted s_model) (ho : SSorted s_obs) :
    ∃ rows, align_series s_model s_obs "asof" tol none how = .ok rows ∧
      ∀ t v, (t, v) ∈ s_model →
        ((∀ p ∈ s_obs, tol < |p.1 - t|) → ∀ r ∈ rows, r.1 ≠ t) ∧
        (∀ t' w, (t', w) ∈ s_obs → |t' - t| ≤ tol →
          (∀ p ∈ s_obs, |t' - t| < |p.1 - t| ∨ (|t' - t| = |p.1 - t| ∧ p.1 ≤ t')) →
          v ≠ FP.nan → w ≠ FP.nan → (t, v, w) ∈ rows) := by
  refine ⟨dropna (asofJoin s_model s_obs tol), ?_, ?_⟩
  · show alignDispatch "asof" (sortSeries s_model) (sortSeries s_obs) tol = _
    rw [sortSeries_eq_of_sorted hm, sortSeries_eq_of_sorted ho, alignDispatch_asof_eq]
  · intro t v _
    constructor
    · intro hfar r hr heq
      obtain ⟨⟨p, hp, rfl⟩, -, hobs⟩ := dropna_asofJoin_mem_inv s_model s_obs tol r hr
      have : nearestWithin s_obs p.1 tol = FP.nan := by
        apply nearestWithin_nan_of_far
        intro q hq
        have := hfar q hq
        simp only at heq
        rw [heq]
        exact this
      exact hobs this
    · intro t' w hw htol hopt hv hwn
      have hopt' : ∀ p ∈ s_obs, betterB t p (t', w) = false := by
        intro p hp
        simp only [betterB, decide_eq_false_iff_not]
        exact better_arith_optimal _ _ _ _ (hopt p hp)
      have hnear : nearest? s_obs t = some (t', w) :=
        nearest_eq_of_opt t s_obs (keysOf_nodup ho) (t', w) hw hopt'
      have hval : nearestWithin s_obs t tol = w := by
        unfold nearestWithin
        rw [hnear]
        show (if |(t', w).1 - t| ≤ tol then (t', w).2 else FP.nan) = w
        rw [if_pos htol]
      have := mem_dropna_asofJoin s_model s_obs tol t v (by assumption) hv (by rw [hval]; exact hwn)
      rw [hval] at this
      exact this

/-- Counterexample to claim C2 as stated: the observed series has a point
at exactly the model timestamp (distance 0, within tolerance 10), so the
claim demands a paired row, but the observed value there is NaN and the
row is dropped, leaving an empty table. -/
theorem claim2_counterexample :
    align_series [((0:Time), FP.fin 1)] [((0:Time), FP.nan)] "asof" 10 none "mean"
        = .ok [] ∧
      |(0:Time) - (0:Time)| ≤ 10 :=
  ⟨rfl, by decide⟩

/-- Witness for the amended claim C2: the model point at time 0 is paired
with the observed point at time 2 (distance 2, tolerance 10). -/
theorem claim2_witness :
    ∃ rows, align_series [((0:Time), FP.fin 1)] [((2:Time), FP.fin 5)]
        "asof" 10 none "mean" = .ok rows ∧
      ((0:Time), FP.fin 1, FP.fin 5) ∈ rows := by
  obtain ⟨rows, h1, h2⟩ := claim2_amended [((0:Time), FP.fin 1)] [((2:Time), FP.fin 5)]
    10 "mean" (by decide) (by decide)
  refine ⟨rows, h1, ?_⟩
  exact (h2 0 (FP.fin 1) (by decide)).2 2 (FP.fin 5) (by decide) (by decide)
    (by decide) (by decide) (by decide)

theorem mem_dropna (r : Row) (rows : List Row) (h : r ∈ dropna rows) :
    r.2.1 ≠ FP.nan ∧ r.2.2 ≠ FP.nan := by
  unfold dropna at h
  exact of_decide_eq_true (List.mem_filter.1 h).2

theorem align_ok_nonnan (sm so : Series) (m : String) (tol : Time)
    (r : Option Nat) (how : String) (rows : List Row)
    (h : align_series sm so m tol r how = .ok rows) :
    ∀ x ∈ rows, x.2.1 ≠ FP.nan ∧ x.2.2 ≠ FP.nan := by
  have hdisp : ∀ (a b : Series), alignDispatch m a b tol = .ok rows →
      ∀ x ∈ rows, x.2.1 ≠ FP.nan ∧ x.2.2 ≠ FP.nan := by
    intro a b hd
    unfold alignDispatch at hd
    split_ifs at hd
    all_goals
      injection hd with hd'
      subst hd'
      exact fun x hx => mem_dropna x _ hx
  unfold align_series at h
  cases r with
  | none => exact hdisp _ _ h
  | some w =>
    cases hla : lookupAgg how with
    | none =>
      simp only [hla] at h
      exact Except.noConfusion h
    | some agg =>
      simp only [hla] at h
      exact hdisp _ _ h

/-- Claim C6, amended: every row of the aligned table that slips through
compare_speed_stats to calc_stats has both the model value and the
observed value present (non-NaN); presence does not imply finiteness,
since dropna keeps infinities, which calc_stats itself later masks out. -/
theorem claim6_amended (datasets : List (String × Dataset))
    (mat_data : List (String × MatVars)) (dfs0_key dfs0_item mat_key : String)
    (bin_index : Nat) (align_method : String) (tolerance : Time)
    (resample : Option Nat) (how_resample : String) (rows : List Row)
    (stats : CalcResult)
    (h : compare_speed_stats datasets mat_data dfs0_key dfs0_item mat_key bin_index
      align_method tolerance resample how_resample = .ok (rows, stats)) :
    ∀ x ∈ rows, x.2.1 ≠ FP.nan ∧ x.2.2 ≠ FP.nan := by
  unfold compare_speed_stats at h
  cases h1 : get_dfs0_speed_series datasets dfs0_key dfs0_item with
  | error e =>
    simp only [h1] at h
    exact Except.noConfusion h
  | ok s_model =>
    simp only [h1] at h
    cases h2 : get_hg_speed_series mat_data mat_key bin_index with
    | error e =>
      simp only [h2] at h
      exact Except.noConfusion h
    | ok s_obs =>
      simp only [h2] at h
      cases h3 : align_series s_model s_obs align_method tolerance resample how_resample with
      | error e =>
        simp only [h3] at h
        exact Except.noConfusion h
      | ok aligned =>
        simp only [h3, Except.ok.injEq, Prod.mk.injEq] at h
        obtain ⟨rfl, -⟩ := h
        exact align_ok_nonnan _ _ _ _ _ _ _ h3

/-- Counterexample to claim C6 as stated: a model series carrying +inf at
a shared timestamp survives dropna (infinity is not a missing value), so
the aligned row handed to calc_stats is present but not finite. -/
theorem claim6_counterexample :
    rowsOf (compare_speed_stats
        [("m.dfs0", ⟨[0], [("speed", [FP.pinf])]⟩)]
        [("o.mat", [("profileStruct", ⟨[⟨[0], [FP.fin 1]⟩]⟩)])]
        "m.dfs0" "speed" "o.mat" 0 "inner" 0 none "mean")
      = [((0:Time), FP.pinf, FP.fin 1)] ∧
    isFiniteFP FP.pinf = false :=
  ⟨rfl, rfl⟩

/-- Witness for the amended claim C6 on a concrete pipeline run whose
single aligned row holds two finite values. -/
theorem claim6_witness :
    ((0:Time), FP.fin 2, FP.fin 1).2.1 ≠ FP.nan ∧
      ((0:Time), FP.fin 2, FP.fin 1).2.2 ≠ FP.nan :=
  claim6_amended
    [("m.dfs0", ⟨[0], [("speed", [FP.fin 2])]⟩)]
    [("o.mat", [("profileStruct", ⟨[⟨[0], [FP.fin 1]⟩]⟩)])]
    "m.dfs0" "speed" "o.mat" 0 "inner" 0 none "mean"
    [((0:Time), FP.fin 2, FP.fin 1)]
    (calc_stats [FP.fin 1] [FP.fin 2])
    rfl
    ((0:Time), FP.fin 2, FP.fin 1)
    (by decide)

end CalVal
